import Mathlib

/-!
Verification of `dotbot-autobot` (`autoconf.py`) against its specification.

The Python script is shallowly embedded below.  External collaborators
(the OS path expansion `os.path.abspath ∘ os.path.expanduser`, the git
diff, and the YAML load/dump pair) are passed in as explicit parameters,
since the script relies entirely on them and never implements them.
-/

namespace Autobot

/-! ## Path utilities (autoconf.py lines 43-54) -/

/-- Character-wise longest common prefix of two character lists; this is what
`os.path.commonprefix` computes on a pair of strings. -/
def commonPrefixList : List Char → List Char → List Char
  | a :: as, b :: bs => if a = b then a :: commonPrefixList as bs else []
  | _, _ => []

/-- Embeds `common_prefix = star(os.path.commonprefix)` applied to two strings
(autoconf.py line 50): the longest common string prefix, compared
character by character, not component-wise. -/
def common_prefix (a b : String) : String :=
  ⟨commonPrefixList a.data b.data⟩

/-- Embeds `file_in_any(filename, directories)` (autoconf.py lines 52-54):
`any(map(lambda d: os.path.commonprefix((filename, d)), directories))`.
Python truthiness of a string is non-emptiness, so each directory
contributes `common_prefix filename d ≠ ""`. -/
def file_in_any (filename : String) (directories : List String) : Bool :=
  directories.any (fun d => common_prefix filename d ≠ "")

/-- A string is absolute when it starts with the path separator; this is the
shape `os.path.abspath` (hence `expand_path`, line 48) always produces. -/
def isAbsolute (s : String) : Bool := s.data.head? = some '/'

/-- Split a character list on `/`, accumulating the current component. -/
def componentsAux (acc : List Char) : List Char → List String
  | [] => [⟨acc.reverse⟩]
  | c :: cs =>
      if c = '/' then ⟨acc.reverse⟩ :: componentsAux [] cs
      else componentsAux (c :: acc) cs

/-- Split a path into its `/`-separated components. -/
def components (s : String) : List String := componentsAux [] s.data

/-- Modelled from the spec: `isUnder(path, directory)` — true iff `directory`
is a prefix component of `path`'s form, comparing path components, not raw
strings.  This is the containment test the spec prescribes for the directory
filter; it is compared against the source's `file_in_any` above. -/
def isUnder_spec (p d : String) : Bool :=
  (components d).isPrefixOf (components p)

/-! ## Diff reader (autoconf.py lines 56-66) -/

/-- Error raised by `repo.diff('HEAD', cached=True)` when the repository has
no HEAD commit to diff against. -/
inductive GitError where
  | noHistory
  deriving DecidableEq, Repr

/-- Embeds `get_added_files(repo, directories)` (autoconf.py lines 56-66).
`repoDiff` models the repository's staged diff: `none` when the repository
has no HEAD (the diff call raises), `some patch` with the paths of the
patch's added files otherwise.  `expand` models
`expand_path = os.path.abspath ∘ os.path.expanduser` (line 48).
The directories are expanded first (line 60), then each added file is kept
iff `file_in_any(expand_path(f), directories)` (line 66). -/
def get_added_files (expand : String → String) (repoDiff : Option (List String))
    (directories : List String) : Except GitError (List String) :=
  match repoDiff with
  | none => .error .noHistory
  | some patch =>
      let dirs := directories.map expand
      .ok (patch.filter (fun f => file_in_any (expand f) dirs))

/-! ## Link manifest model and merger core (autoconf.py lines 68-110) -/

/-- One YAML task entry of the dotbot manifest: it may contain a `link`
mapping (a Python dict, modelled as an insertion-ordered association list
with unique keys) from link-target path to link-source path.  Other keys of
the task dict are never touched by the script and are not modelled. -/
structure Task where
  link : Option (List (String × String))
  deriving DecidableEq, Repr

/-- Embeds `links_to` (autoconf.py lines 94-95):
`[link for task in tasks if 'link' in task for link in task['link']]` —
all link-target keys across the whole manifest, in order. -/
def links_to (tasks : List Task) : List String :=
  tasks.foldr
    (fun task acc =>
      match task.link with
      | none => acc
      | some m => m.map Prod.fst ++ acc) []

/-- Embeds `os.path.split(f)[1]`: everything after the last `/` of the path. -/
def basename (s : String) : String :=
  ⟨s.data.foldl (fun acc c => if c = '/' then [] else acc ++ [c]) []⟩

/-- The link-source string built on autoconf.py line 99:
`"." + os.path.split(f)[1]`. -/
def link_from_of (f : String) : String := "." ++ basename f

/-- Embeds `os.path.join("~", b)` (autoconf.py line 101): if the second component
is absolute it replaces the first, otherwise they are joined with `/`. -/
def joinHome (b : String) : String :=
  if isAbsolute b then b else "~/" ++ b

/-- Python dict assignment `d[k] = v` on an insertion-ordered association
list: replace the value in place if the key is present, else append. -/
def dictInsert (m : List (String × String)) (k v : String) :
    List (String × String) :=
  if m.any (fun p => p.1 = k) then
    m.map (fun p => if p.1 = k then (k, v) else p)
  else m ++ [(k, v)]

/-- One iteration of the loop of autoconf.py lines 100-104: derive
`link_from` and `link_to` for the added file `f`, and insert the pair into
the accumulating dict iff `link_to` is not among the manifest's existing
target keys (`links_to` is computed once, before the loop, on line 94). -/
def mergeStep (tasks : List Task) (acc : List (String × String))
    (f : String) : List (String × String) :=
  let lf := link_from_of f
  let lt := joinHome lf
  if lt ∈ links_to tasks then acc else dictInsert acc lt lf

/-- The loop of autoconf.py lines 100-104 building `new_task['link']`,
starting from the empty dict of line 92. -/
def buildNewTask (tasks : List Task) (added_files : List String) :
    List (String × String) :=
  added_files.foldl (mergeStep tasks) []

/-- Lines 106-110 of autoconf.py at the manifest level: if the fresh task's
link dict is non-empty, append it as one new task at the end; otherwise
leave the manifest unchanged (and do not rewrite the file). -/
def update_tasks (tasks : List Task) (added_files : List String) : List Task :=
  let nt := buildNewTask tasks added_files
  if nt.isEmpty then tasks else tasks ++ [⟨some nt⟩]

/-- First-match lookup of a link-target's source value in an association
list. -/
def lookupAList (m : List (String × String)) (k : String) : Option String :=
  match m with
  | [] => none
  | (a, b) :: rest => if a = k then some b else lookupAList rest k

/-- First-match lookup of a link-target's source value across the whole
manifest, scanning tasks in order. -/
def lookupSource (tasks : List Task) (k : String) : Option String :=
  match tasks with
  | [] => none
  | task :: rest =>
      match task.link with
      | none => lookupSource rest k
      | some m =>
          match lookupAList m k with
          | some v => some v
          | none => lookupSource rest k

/-! ## Backup-name probing (autoconf.py lines 77-83) -/

/-- The sequence of candidate backup names the while loop of lines 78-82
actually visits: it starts from `config_file + ".bak"` and, on each
collision, appends `str(i)` to the PREVIOUS candidate
(`backup_file += str(i)`), so the candidates are
`name.bak`, `name.bak0`, `name.bak01`, `name.bak012`, … -/
def backup_candidate (config_file : String) : Nat → String
  | 0 => config_file ++ ".bak"
  | n + 1 => backup_candidate config_file n ++ Nat.repr n

/-- Fuel-based unrolling of the probing while loop (lines 79-82): as long as
the current candidate names an existing (readable) file, append `str(i)` and
increment `i`. -/
def probeAux (existing : List String) : String → Nat → Nat → String
  | cur, _, 0 => cur
  | cur, i, fuel + 1 =>
      if cur ∈ existing then probeAux existing (cur ++ Nat.repr i) (i + 1) fuel
      else cur

/-- Enough fuel for the probe: one more than the longest existing name. -/
def bakFuel (existing : List String) : Nat :=
  existing.foldr (fun e acc => max e.length acc) 0 + 1

/-- The backup path chosen by autoconf.py lines 78-82, probing against the
set of files readable on disk.  The fuel is sufficient (proved below), so
this equals the first candidate in the visited sequence that is unused —
exactly what the unbounded while loop computes. -/
def backup_name (existing : List String) (config_file : String) : String :=
  probeAux existing (config_file ++ ".bak") 0 (bakFuel existing)

/-! ## Filesystem model, `update_dotbot_conf` and `main`
(autoconf.py lines 68-116 and 139-154) -/

/-- The on-disk state: a map from file name to file content, modelled as an
insertion-ordered association list with unique names. -/
abbrev FS := List (String × String)

/-- The names of the files present on disk (what `os.access(·, R_OK)`
probes). -/
def FS.names (fs : FS) : List String := fs.map Prod.fst

/-- Read a file's content (empty default for a missing file). -/
def readFile (fs : FS) (n : String) : String := (lookupAList fs n).getD ""

/-- Delete a file (`os.remove`). -/
def removeFile (fs : FS) (n : String) : FS := fs.filter (fun p => p.1 != n)

/-- Outcome of one `update_dotbot_conf` run. -/
structure UpdateResult where
  fs : FS
  wrote : Bool
  caught : Bool
  deriving DecidableEq, Repr

/-- Embeds `update_dotbot_conf(config_file, added_files)` (autoconf.py lines 68-116)
as a transformer of the on-disk state.

External collaborators and failure injection: `parse` models `yaml.load`
(`none` = the load raises, or the loaded value is not an iterable of tasks);
`dump` models `yaml.dump`; `writeOk = false` forces the write of lines
109-110 to fail after leaving `corruptText` in the file (`open(_, 'w')`
truncates before `yaml.dump` runs).  The filesystem primitives themselves
(`cp`, `os.remove`, the restore) are assumed to succeed, and the config file
is assumed to exist (otherwise the initial `cp` of line 83 would raise
before the backup exists).

Control flow, faithful to the source: probe a fresh backup name against the
files on disk (lines 78-82), copy the config there (line 83); in the try
block load the manifest, build the new task and, if it is non-empty, write
the merged manifest back (lines 86-110); on any exception restore the config
from the backup (line 114); in all cases remove the backup (line 116).
`wrote` records whether new content was successfully written; `caught`
records whether the except-branch ran.  The caught exception is only logged
at debug level (line 113) and is NOT re-raised: the function always returns
normally. -/
def update_dotbot_conf (parse : String → Option (List Task))
    (dump : List Task → String) (config_file : String)
    (added_files : List String) (writeOk : Bool) (corruptText : String)
    (fs0 : FS) : UpdateResult :=
  let backup_file := backup_name fs0.names config_file
  let origText := readFile fs0 config_file
  let fs1 := dictInsert fs0 backup_file origText
  let step : FS × Bool × Bool :=
    match parse (readFile fs1 config_file) with
    | none => (fs1, true, false)
    | some tasks =>
        let nt := buildNewTask tasks added_files
        if nt.isEmpty then (fs1, false, false)
        else if writeOk then
          (dictInsert fs1 config_file (dump (tasks ++ [⟨some nt⟩])), false, true)
        else (dictInsert fs1 config_file corruptText, true, false)
  match step with
  | (fsT, failed, wrote) =>
      let fs2 := if failed then dictInsert fsT config_file (readFile fsT backup_file)
                 else fsT
      { fs := removeFile fs2 backup_file, wrote := wrote, caught := failed }

/-- Observable outcome of one `main` run: final disk state, whether the
config file was staged into the git index, whether the merge was invoked,
whether it wrote new content, and whether the process exits with code 0. -/
structure MainOutcome where
  fs : FS
  staged : Bool
  updateInvoked : Bool
  wrote : Bool
  exitZero : Bool
  deriving DecidableEq, Repr

/-- Embeds `main()` (autoconf.py lines 139-154): compute the added files; if the
diff raises (no HEAD) the exception propagates out of `main` and the process
exits non-zero; if the added-file list is empty, do nothing and exit 0;
otherwise run `update_dotbot_conf` and then unconditionally stage the config
file (`repo.index.add(config_file)`, line 152) and exit 0 — any error caught
inside `update_dotbot_conf` was swallowed there, so it cannot affect the
exit code. -/
def main (parse : String → Option (List Task)) (dump : List Task → String)
    (expand : String → String) (repoDiff : Option (List String))
    (directories : List String) (config_file : String) (writeOk : Bool)
    (corruptText : String) (fs0 : FS) : MainOutcome :=
  match get_added_files expand repoDiff directories with
  | .error _ => ⟨fs0, false, false, false, false⟩
  | .ok added_files =>
      if added_files.isEmpty then ⟨fs0, false, false, false, true⟩
      else
        let r := update_dotbot_conf parse dump config_file added_files
          writeOk corruptText fs0
        ⟨r.fs, true, true, r.wrote, true⟩

/-! ## Helper lemmas: backup-name probing -/

theorem toDigitsCore_length_le (b : Nat) :
    ∀ (fuel n : Nat) (ds : List Char),
      ds.length ≤ (Nat.toDigitsCore b fuel n ds).length := by
  intro fuel
  induction fuel with
  | zero => intro n ds; exact Nat.le_refl _
  | succ f ih =>
      intro n ds
      simp only [Nat.toDigitsCore]
      split
      · exact Nat.le_succ _
      · exact Nat.le_trans (Nat.le_succ _) (ih (n / b) ((n % b).digitChar :: ds))

theorem repr_length_pos (n : Nat) : 0 < (Nat.repr n).length := by
  show 0 < (Nat.toDigits 10 n).asString.length
  have h : (Nat.toDigits 10 n).asString.length = (Nat.toDigits 10 n).length := rfl
  rw [h]
  unfold Nat.toDigits
  simp only [Nat.toDigitsCore]
  split
  · exact Nat.zero_lt_one
  · exact Nat.lt_of_lt_of_le Nat.zero_lt_one
      (toDigitsCore_length_le 10 n (n / 10) [Nat.digitChar (n % 10)])

theorem string_length_append (a b : String) :
    (a ++ b).length = a.length + b.length := by
  cases a with | mk da => cases b with | mk db =>
  show (da ++ db).length = da.length + db.length
  exact List.length_append da db

theorem backup_candidate_len (config : String) :
    ∀ n, n ≤ (backup_candidate config n).length := by
  intro n
  induction n with
  | zero => exact Nat.zero_le _
  | succ m ih =>
      have h2 := repr_length_pos m
      simp only [backup_candidate]
      rw [string_length_append]
      omega

theorem config_length_lt_candidate (config : String) :
    ∀ n, config.length < (backup_candidate config n).length := by
  intro n
  induction n with
  | zero =>
      simp only [backup_candidate]
      rw [string_length_append]
      have : (".bak" : String).length = 4 := rfl
      omega
  | succ m ih =>
      simp only [backup_candidate]
      rw [string_length_append]
      omega

theorem length_le_maxLen (existing : List String) (e : String)
    (he : e ∈ existing) :
    e.length ≤ existing.foldr (fun x acc => max x.length acc) 0 := by
  induction existing with
  | nil => cases he
  | cons a as ih =>
      rcases List.mem_cons.mp he with h | h
      · subst h; exact Nat.le_max_left _ _
      · exact Nat.le_trans (ih h) (Nat.le_max_right _ _)

theorem candidate_bakFuel_not_mem (existing : List String) (config : String) :
    backup_candidate config (bakFuel existing) ∉ existing := by
  intro hmem
  have h1 := backup_candidate_len config (bakFuel existing)
  have h2 := length_le_maxLen existing _ hmem
  have hfb : bakFuel existing =
      existing.foldr (fun x acc => max x.length acc) 0 + 1 := rfl
  omega

theorem probeAux_spec (existing : List String) (config : String) :
    ∀ (fuel k : Nat),
      (∃ j, j ≤ fuel ∧ backup_candidate config (k + j) ∉ existing) →
      ∃ n, k ≤ n ∧
        probeAux existing (backup_candidate config k) k fuel =
          backup_candidate config n ∧
        backup_candidate config n ∉ existing ∧
        ∀ m, k ≤ m → m < n → backup_candidate config m ∈ existing := by
  intro fuel
  induction fuel with
  | zero =>
      rintro k ⟨j, hj, hnot⟩
      have hj0 : j = 0 := Nat.le_zero.mp hj
      subst hj0
      refine ⟨k, Nat.le_refl _, rfl, by simpa using hnot, ?_⟩
      intro m h1 h2; omega
  | succ f ih =>
      rintro k ⟨j, hj, hnot⟩
      by_cases hk : backup_candidate config k ∈ existing
      · have hstep : probeAux existing (backup_candidate config k) k (f + 1) =
            probeAux existing (backup_candidate config (k + 1)) (k + 1) f := by
          simp only [probeAux, if_pos hk]
          rfl
        obtain ⟨j2, rfl⟩ : ∃ j2, j = j2 + 1 := by
          cases j with
          | zero => exact absurd hnot (by simpa using hk)
          | succ j2 => exact ⟨j2, rfl⟩
        have hnot2 : backup_candidate config ((k + 1) + j2) ∉ existing := by
          have harg : (k + 1) + j2 = k + (j2 + 1) := by omega
          rw [harg]; exact hnot
        obtain ⟨n, hn1, hn2, hn3, hn4⟩ :=
          ih (k + 1) ⟨j2, Nat.le_of_succ_le_succ hj, hnot2⟩
        refine ⟨n, by omega, hstep.trans hn2, hn3, ?_⟩
        intro m hm1 hm2
        rcases Nat.eq_or_lt_of_le hm1 with h | h
        · subst h; exact hk
        · exact hn4 m h hm2
      · refine ⟨k, Nat.le_refl _, ?_, hk, ?_⟩
        · simp only [probeAux, if_neg hk]
        · intro m h1 h2; omega

theorem backup_name_spec (existing : List String) (config : String) :
    ∃ n, backup_name existing config = backup_candidate config n ∧
      backup_candidate config n ∉ existing ∧
      ∀ m, m < n → backup_candidate config m ∈ existing := by
  have hex : ∃ j, j ≤ bakFuel existing ∧
      backup_candidate config (0 + j) ∉ existing :=
    ⟨bakFuel existing, Nat.le_refl _, by
      simpa using candidate_bakFuel_not_mem existing config⟩
  obtain ⟨n, _, h2, h3, h4⟩ := probeAux_spec existing config (bakFuel existing) 0 hex
  exact ⟨n, h2, h3, fun m hm => h4 m (Nat.zero_le _) hm⟩

theorem backup_name_ne (existing : List String) (config : String) :
    backup_name existing config ≠ config := by
  obtain ⟨n, heq, _, _⟩ := backup_name_spec existing config
  rw [heq]
  intro h
  have hlen := congrArg String.length h
  have := config_length_lt_candidate config n
  omega

/-! ## Helper lemmas: association lists, the filesystem map, `links_to` -/

theorem lookupAList_cons (a1 a2 k : String) (rest : List (String × String)) :
    lookupAList ((a1, a2) :: rest) k =
      if a1 = k then some a2 else lookupAList rest k := rfl

theorem lookupAList_map_replace (k v : String) :
    ∀ m : List (String × String), m.any (fun p => p.1 = k) = true →
      lookupAList (m.map (fun p => if p.1 = k then (k, v) else p)) k = some v := by
  intro m
  induction m with
  | nil => intro h; simp at h
  | cons a rest ih =>
      rcases a with ⟨a1, a2⟩
      intro h
      by_cases ha : a1 = k
      · subst ha
        simp [lookupAList_cons]
      · have h2 : (rest.any fun p => decide (p.1 = k)) = true := by
          simpa [ha] using h
        simpa [ha, lookupAList_cons] using ih h2

theorem lookupAList_append_last (k v : String) :
    ∀ m : List (String × String), m.any (fun p => p.1 = k) = false →
      lookupAList (m ++ [(k, v)]) k = some v := by
  intro m
  induction m with
  | nil => intro _; simp [lookupAList_cons]
  | cons a rest ih =>
      rcases a with ⟨a1, a2⟩
      intro h
      simp only [List.any_cons, Bool.or_eq_false_iff,
        decide_eq_false_iff_not] at h
      simp only [List.cons_append, lookupAList_cons, if_neg h.1]
      exact ih (by simp [h.2])

theorem lookupAList_dictInsert_self (m : List (String × String)) (k v : String) :
    lookupAList (dictInsert m k v) k = some v := by
  unfold dictInsert
  split
  · exact lookupAList_map_replace k v m (by assumption)
  · rename_i h
    exact lookupAList_append_last k v m (Bool.eq_false_iff.mpr h)

theorem lookupAList_map_replace_ne (k v k2 : String) (hne : k2 ≠ k) :
    ∀ m : List (String × String),
      lookupAList (m.map (fun p => if p.1 = k then (k, v) else p)) k2 =
        lookupAList m k2 := by
  intro m
  induction m with
  | nil => rfl
  | cons a rest ih =>
      rcases a with ⟨a1, a2⟩
      by_cases ha : a1 = k
      · have ha2 : ¬a1 = k2 := by rw [ha]; exact fun h => hne h.symm
        simpa [ha, lookupAList_cons, Ne.symm hne, ha2] using ih
      · by_cases ha2 : a1 = k2
        · subst ha2
          simp [ha, lookupAList_cons]
        · simpa [ha, lookupAList_cons, ha2] using ih

theorem lookupAList_append_last_ne (k v k2 : String) (hne : k2 ≠ k) :
    ∀ m : List (String × String),
      lookupAList (m ++ [(k, v)]) k2 = lookupAList m k2 := by
  intro m
  induction m with
  | nil => simp [lookupAList_cons, lookupAList, Ne.symm hne]
  | cons a rest ih =>
      rcases a with ⟨a1, a2⟩
      by_cases ha : a1 = k2
      · simp only [List.cons_append, lookupAList_cons, if_pos ha]
      · simp only [List.cons_append, lookupAList_cons, if_neg ha]
        exact ih

theorem lookupAList_dictInsert_ne (m : List (String × String))
    (k v k2 : String) (hne : k2 ≠ k) :
    lookupAList (dictInsert m k v) k2 = lookupAList m k2 := by
  unfold dictInsert
  split
  · exact lookupAList_map_replace_ne k v k2 hne m
  · exact lookupAList_append_last_ne k v k2 hne m

theorem mem_keys_iff_lookup (k : String) :
    ∀ m : List (String × String),
      k ∈ m.map Prod.fst ↔ lookupAList m k ≠ none := by
  intro m
  induction m with
  | nil => simp [lookupAList]
  | cons a rest ih =>
      rcases a with ⟨a1, a2⟩
      by_cases ha : a1 = k
      · subst ha; simp [lookupAList_cons]
      · simp [lookupAList_cons, ha, ih, Ne.symm ha]

theorem readFile_dictInsert_self (fs : FS) (n v : String) :
    readFile (dictInsert fs n v) n = v := by
  unfold readFile
  rw [lookupAList_dictInsert_self]
  rfl

theorem readFile_dictInsert_ne (fs : FS) (n v n2 : String) (hne : n2 ≠ n) :
    readFile (dictInsert fs n v) n2 = readFile fs n2 := by
  unfold readFile
  rw [lookupAList_dictInsert_ne fs n v n2 hne]

theorem not_mem_names_removeFile (fs : FS) (n : String) :
    n ∉ FS.names (removeFile fs n) := by
  intro h
  simp only [FS.names, removeFile, List.mem_map] at h
  obtain ⟨p, hp, hfst⟩ := h
  have hq := (List.mem_filter.mp hp).2
  rw [hfst] at hq
  simp at hq

theorem links_to_append (t1 t2 : List Task) :
    links_to (t1 ++ t2) = links_to t1 ++ links_to t2 := by
  induction t1 with
  | nil => rfl
  | cons task rest ih =>
      rcases task with ⟨_ | m⟩
      · exact ih
      · show m.map Prod.fst ++ links_to (rest ++ t2) =
          (m.map Prod.fst ++ links_to rest) ++ links_to t2
        rw [ih, List.append_assoc]

/-! ## Helper lemmas: the merge loop -/

theorem mem_keys_dictInsert_self (m : List (String × String)) (k v : String) :
    k ∈ (dictInsert m k v).map Prod.fst := by
  rw [mem_keys_iff_lookup, lookupAList_dictInsert_self]
  exact fun h => Option.noConfusion h

theorem mem_keys_dictInsert_of_mem (m : List (String × String))
    (k v k2 : String) (h : k2 ∈ m.map Prod.fst) :
    k2 ∈ (dictInsert m k v).map Prod.fst := by
  by_cases hk : k2 = k
  · subst hk; exact mem_keys_dictInsert_self m k2 v
  · rw [mem_keys_iff_lookup, lookupAList_dictInsert_ne m k v k2 hk]
    exact (mem_keys_iff_lookup k2 m).mp h

theorem mergeStep_eq (tasks : List Task) (acc : List (String × String))
    (f : String) :
    mergeStep tasks acc f =
      if joinHome (link_from_of f) ∈ links_to tasks then acc
      else dictInsert acc (joinHome (link_from_of f)) (link_from_of f) := rfl

theorem foldl_mergeStep_keys_mono (tasks : List Task) (k : String) :
    ∀ (files : List String) (acc : List (String × String)),
      k ∈ acc.map Prod.fst →
      k ∈ (files.foldl (mergeStep tasks) acc).map Prod.fst := by
  intro files
  induction files with
  | nil => intro acc h; exact h
  | cons f fs ih =>
      intro acc h
      show k ∈ (fs.foldl (mergeStep tasks) (mergeStep tasks acc f)).map Prod.fst
      apply ih
      rw [mergeStep_eq]
      split
      · exact h
      · exact mem_keys_dictInsert_of_mem acc _ _ k h

theorem foldl_mergeStep_covers (tasks : List Task) :
    ∀ (files : List String) (acc : List (String × String)) (f : String),
      f ∈ files →
      joinHome (link_from_of f) ∈ links_to tasks ∨
        joinHome (link_from_of f) ∈
          (files.foldl (mergeStep tasks) acc).map Prod.fst := by
  intro files
  induction files with
  | nil => intro acc f h; cases h
  | cons f0 fs ih =>
      intro acc f hf
      rcases List.mem_cons.mp hf with h | h
      · subst h
        by_cases hin : joinHome (link_from_of f) ∈ links_to tasks
        · exact Or.inl hin
        · refine Or.inr ?_
          show joinHome (link_from_of f) ∈
            (fs.foldl (mergeStep tasks) (mergeStep tasks acc f)).map Prod.fst
          apply foldl_mergeStep_keys_mono
          rw [mergeStep_eq, if_neg hin]
          exact mem_keys_dictInsert_self acc _ _
      · exact ih (mergeStep tasks acc f0) f h

theorem buildNewTask_covers (tasks : List Task) (files : List String)
    (f : String) (hf : f ∈ files) :
    joinHome (link_from_of f) ∈ links_to tasks ∨
      joinHome (link_from_of f) ∈ (buildNewTask tasks files).map Prod.fst :=
  foldl_mergeStep_covers tasks files [] f hf

theorem foldl_mergeStep_covered_id (tasks : List Task) :
    ∀ (files : List String) (acc : List (String × String)),
      (∀ f ∈ files, joinHome (link_from_of f) ∈ links_to tasks) →
      files.foldl (mergeStep tasks) acc = acc := by
  intro files
  induction files with
  | nil => intro acc _; rfl
  | cons f0 fs ih =>
      intro acc h
      show fs.foldl (mergeStep tasks) (mergeStep tasks acc f0) = acc
      have h0 : mergeStep tasks acc f0 = acc := by
        rw [mergeStep_eq, if_pos (h f0 (List.mem_cons_self f0 fs))]
      rw [h0]
      exact ih acc (fun f hf => h f (List.mem_cons_of_mem f0 hf))

theorem buildNewTask_nil_of_covered (tasks : List Task) (files : List String)
    (h : ∀ f ∈ files, joinHome (link_from_of f) ∈ links_to tasks) :
    buildNewTask tasks files = [] :=
  foldl_mergeStep_covered_id tasks files [] h

theorem lookupAList_removeFile_ne (n n2 : String) (hne : n2 ≠ n) :
    ∀ fs : FS, lookupAList (removeFile fs n) n2 = lookupAList fs n2 := by
  intro fs
  induction fs with
  | nil => rfl
  | cons a rest ih =>
      rcases a with ⟨a1, a2⟩
      by_cases ha : a1 = n
      · subst ha
        have : removeFile ((a1, a2) :: rest) a1 = removeFile rest a1 := by
          simp [removeFile]
        rw [this, ih, lookupAList_cons, if_neg (fun h => hne h.symm)]
      · have : removeFile ((a1, a2) :: rest) n = (a1, a2) :: removeFile rest n := by
          simp [removeFile, ha]
        rw [this, lookupAList_cons, lookupAList_cons]
        by_cases ha2 : a1 = n2
        · simp [ha2]
        · simp [ha2, ih]

theorem readFile_removeFile_ne (fs : FS) (n n2 : String) (hne : n2 ≠ n) :
    readFile (removeFile fs n) n2 = readFile fs n2 := by
  unfold readFile
  rw [lookupAList_removeFile_ne n n2 hne fs]

theorem lookupSource_cons_none (rest : List Task) (T : String) :
    lookupSource (⟨none⟩ :: rest) T = lookupSource rest T := rfl

theorem lookupSource_cons_some (m : List (String × String)) (rest : List Task)
    (T : String) :
    lookupSource (⟨some m⟩ :: rest) T =
      match lookupAList m T with
      | some v => some v
      | none => lookupSource rest T := rfl

theorem lookupSource_append_of_mem (T : String) (t2 : List Task) :
    ∀ t1 : List Task, T ∈ links_to t1 →
      lookupSource (t1 ++ t2) T = lookupSource t1 T := by
  intro t1
  induction t1 with
  | nil => intro h; simp [links_to] at h
  | cons task rest ih =>
      rcases task with ⟨_ | m⟩
      · intro h
        show lookupSource (rest ++ t2) T = lookupSource rest T
        exact ih h
      · intro h
        have hcons : (Task.mk (some m) :: rest) ++ t2 =
            Task.mk (some m) :: (rest ++ t2) := rfl
        rw [hcons, lookupSource_cons_some, lookupSource_cons_some]
        cases hm : lookupAList m T with
        | some v => rfl
        | none =>
            have hT : T ∈ links_to rest := by
              have hsplit : links_to (Task.mk (some m) :: rest) =
                  m.map Prod.fst ++ links_to rest := rfl
              rw [hsplit, List.mem_append] at h
              rcases h with h | h
              · exact absurd hm ((mem_keys_iff_lookup T m).mp h)
              · exact h
            exact ih hT

theorem update_tasks_of_nil (tasks : List Task) (files : List String)
    (h : buildNewTask tasks files = []) :
    update_tasks tasks files = tasks := by
  unfold update_tasks
  rw [h]
  rfl

theorem update_tasks_of_isEmpty (tasks : List Task) (files : List String)
    (h : (buildNewTask tasks files).isEmpty = true) :
    update_tasks tasks files = tasks := by
  unfold update_tasks
  rw [if_pos h]

theorem update_tasks_of_not_isEmpty (tasks : List Task) (files : List String)
    (h : ¬(buildNewTask tasks files).isEmpty = true) :
    update_tasks tasks files = tasks ++ [⟨some (buildNewTask tasks files)⟩] := by
  unfold update_tasks
  rw [if_neg h]

/-! ## Claim theorems -/

/-- C1 (code bug): the directory filter does NOT decide containment
component-wise.  `/foo2/bar` is not under `/foo` (the spec's component-wise
`isUnder` rejects it), yet `file_in_any` accepts it — `os.path.commonprefix`
returns the truthy string `"/foo"` — so `get_added_files` keeps the file. -/
theorem claim1_filter_not_componentwise :
    file_in_any "/foo2/bar" ["/foo"] = true ∧
    isUnder_spec "/foo2/bar" "/foo" = false ∧
    get_added_files (fun s => s) (some ["/foo2/bar"]) ["/foo"] =
      .ok ["/foo2/bar"] :=
  ⟨by decide, by decide, rfl⟩

/-- C3 (code bug): merging added file `bashrc` into the manifest
`[{link: {~/.vimrc: vimrc}}]` appends `{link: {~/.bashrc: .bashrc}}` — the
stored source is the dot-prefixed base name `".bashrc"`, not the
repository-relative path `"bashrc"` claimed by the spec and by the
function's own docstring. -/
theorem claim3_source_path_eval :
    update_tasks [⟨some [("~/.vimrc", "vimrc")]⟩] ["bashrc"] =
      [⟨some [("~/.vimrc", "vimrc")]⟩, ⟨some [("~/.bashrc", ".bashrc")]⟩] ∧
    lookupSource (update_tasks [⟨some [("~/.vimrc", "vimrc")]⟩] ["bashrc"])
        "~/.bashrc" = some ".bashrc" ∧
    (".bashrc" : String) ≠ "bashrc" := by decide

/-- C4 (confirmed): the merge is idempotent — after one run every derived
target is present in the whole manifest, so a second run with the same
added-file list builds an empty new task (nothing is appended and the file
is not rewritten) and leaves the manifest unchanged. -/
theorem claim4_merge_idempotent (tasks : List Task) (added_files : List String) :
    buildNewTask (update_tasks tasks added_files) added_files = [] ∧
    update_tasks (update_tasks tasks added_files) added_files =
      update_tasks tasks added_files := by
  have key : buildNewTask (update_tasks tasks added_files) added_files = [] := by
    by_cases hnt : (buildNewTask tasks added_files).isEmpty = true
    · rw [update_tasks_of_isEmpty tasks added_files hnt]
      exact List.isEmpty_iff.mp hnt
    · rw [update_tasks_of_not_isEmpty tasks added_files hnt]
      apply buildNewTask_nil_of_covered
      intro f hf
      have hsingle : links_to [Task.mk (some (buildNewTask tasks added_files))] =
          (buildNewTask tasks added_files).map Prod.fst := by
        show (buildNewTask tasks added_files).map Prod.fst ++ [] = _
        exact List.append_nil _
      rw [links_to_append, hsingle, List.mem_append]
      exact buildNewTask_covers tasks added_files f hf
  exact ⟨key, update_tasks_of_nil _ _ key⟩

/-- C5 (confirmed): the merge never rewrites or removes existing task
entries (they survive unchanged as a prefix), appends at most one new task,
and every pre-existing target keeps its source value. -/
theorem claim5_no_clobber (tasks : List Task) (added_files : List String)
    (T : String) :
    (update_tasks tasks added_files).take tasks.length = tasks ∧
    (update_tasks tasks added_files).length ≤ tasks.length + 1 ∧
    (T ∈ links_to tasks →
      lookupSource (update_tasks tasks added_files) T = lookupSource tasks T) := by
  by_cases hnt : (buildNewTask tasks added_files).isEmpty = true
  · rw [update_tasks_of_isEmpty tasks added_files hnt]
    exact ⟨List.take_length tasks, Nat.le_succ _, fun _ => rfl⟩
  · rw [update_tasks_of_not_isEmpty tasks added_files hnt]
    refine ⟨List.take_left tasks _, ?_, ?_⟩
    · rw [List.length_append]
      exact Nat.le_refl _
    · intro hT
      exact lookupSource_append_of_mem T _ tasks hT

/-- Witness for C5 at a concrete manifest: the pre-existing target `~/.x`
keeps its source value through a merge that appends a new entry. -/
theorem claim5_no_clobber_witness :
    ("~/.x" ∈ links_to [⟨some [("~/.x", "x")]⟩]) ∧
    lookupSource (update_tasks [⟨some [("~/.x", "x")]⟩] ["y"]) "~/.x" =
      lookupSource [⟨some [("~/.x", "x")]⟩] "~/.x" :=
  ⟨by decide, (claim5_no_clobber [⟨some [("~/.x", "x")]⟩] ["y"] "~/.x").2.2
    (by decide)⟩

/-- C8 (confirmed): when the repository has no HEAD, the diff step fails
with the no-history error, the merge is never invoked, the disk is
untouched, nothing is staged, and the process exits non-zero. -/
theorem claim8_no_head_abort (parse : String → Option (List Task))
    (dump : List Task → String) (expand : String → String)
    (directories : List String) (config_file : String) (writeOk : Bool)
    (corruptText : String) (fs0 : FS) :
    get_added_files expand none directories = .error .noHistory ∧
    (main parse dump expand none directories config_file writeOk corruptText
      fs0).updateInvoked = false ∧
    (main parse dump expand none directories config_file writeOk corruptText
      fs0).fs = fs0 ∧
    (main parse dump expand none directories config_file writeOk corruptText
      fs0).staged = false ∧
    (main parse dump expand none directories config_file writeOk corruptText
      fs0).exitZero = false :=
  ⟨rfl, rfl, rfl, rfl, rfl⟩

/-- C9 counterexample: with `conf.bak` and `conf.bak0` both in use, the
claimed probe sequence would next try `conf.bak1`, but the code appends
`str(i)` to the PREVIOUS candidate and picks `conf.bak01`. -/
theorem claim9_probe_sequence_cex :
    backup_name ["conf.bak", "conf.bak0"] "conf" = "conf.bak01" ∧
    ("conf.bak01" : String) ≠ "conf.bak1" := by decide

/-- C9 (amended): the backup name is the first unused candidate in the
sequence actually visited by the loop — `name.bak`, then on each collision
the previous candidate with `str(i)` appended (`name.bak0`, `name.bak01`,
`name.bak012`, …) — and in particular it never collides with an existing
file. -/
theorem claim9_backup_probe (existing : List String) (config_file : String) :
    ∃ n, backup_name existing config_file = backup_candidate config_file n ∧
      backup_candidate config_file n ∉ existing ∧
      ∀ m, m < n → backup_candidate config_file m ∈ existing :=
  backup_name_spec existing config_file

theorem common_prefix_abs_ne (a b : String) (ha : isAbsolute a = true)
    (hb : isAbsolute b = true) : common_prefix a b ≠ "" := by
  have ha2 : a.data.head? = some '/' := of_decide_eq_true ha
  have hb2 : b.data.head? = some '/' := of_decide_eq_true hb
  intro hcp
  have hcpl : commonPrefixList a.data b.data = [] := congrArg String.data hcp
  cases hda : a.data with
  | nil => rw [hda] at ha2; exact Option.noConfusion ha2
  | cons c cs =>
      cases hdb : b.data with
      | nil => rw [hdb] at hb2; exact Option.noConfusion hb2
      | cons c2 cs2 =>
          rw [hda] at ha2
          rw [hdb] at hb2
          simp only [List.head?_cons, Option.some.injEq] at ha2 hb2
          subst ha2
          subst hb2
          rw [hda, hdb] at hcpl
          simp [commonPrefixList] at hcpl

/-- C10 (confirmed): the membership test is vacuous for non-empty watch
sets.  Any two absolute paths share at least the prefix `/`, and
`file_in_any` only tests the common prefix for truthiness, so
`get_added_files` keeps every added file when at least one watch directory
is supplied — and keeps none when the directory sequence is empty. -/
theorem claim10_filter_vacuous (expand : String → String) (patch : List String)
    (directories : List String)
    (habs : ∀ s, isAbsolute (expand s) = true) :
    (∀ f dirs2, (∀ d ∈ dirs2, isAbsolute d = true) → dirs2 ≠ [] →
      isAbsolute f = true → file_in_any f dirs2 = true) ∧
    (directories ≠ [] →
      get_added_files expand (some patch) directories = .ok patch) ∧
    get_added_files expand (some patch) [] = .ok [] := by
  have hfia : ∀ f dirs2, (∀ d ∈ dirs2, isAbsolute d = true) → dirs2 ≠ [] →
      isAbsolute f = true → file_in_any f dirs2 = true := by
    intro f dirs2 hd hne hf
    rcases dirs2 with _ | ⟨d, ds⟩
    · exact absurd rfl hne
    · unfold file_in_any
      simp only [List.any_cons, Bool.or_eq_true]
      left
      simp only [decide_eq_true_eq]
      exact common_prefix_abs_ne f d hf (hd d (List.mem_cons_self d ds))
  refine ⟨hfia, ?_, ?_⟩
  · intro hdir
    show Except.ok
        (patch.filter fun f => file_in_any (expand f) (directories.map expand)) =
      Except.ok patch
    congr 1
    apply List.filter_eq_self.mpr
    intro f _
    apply hfia (expand f) (directories.map expand) ?_ ?_ (habs f)
    · intro d hd
      obtain ⟨d0, _, rfl⟩ := List.mem_map.mp hd
      exact habs d0
    · intro hmap
      exact hdir (List.map_eq_nil_iff.mp hmap)
  · show Except.ok
        (patch.filter fun f =>
          file_in_any (expand f) (([] : List String).map expand)) =
      Except.ok []
    congr 1
    apply List.filter_eq_nil_iff.mpr
    intro f _
    simp [file_in_any]

/-- Witness for C10: with the expansion prefixing `/`, a non-empty watch
set keeps every added file and the empty set keeps none. -/
theorem claim10_filter_vacuous_witness :
    get_added_files (fun t => "/" ++ t) (some ["bashrc", "x"]) ["/w"] =
      .ok ["bashrc", "x"] ∧
    get_added_files (fun t => "/" ++ t) (some ["bashrc", "x"]) [] = .ok [] := by
  have habs : ∀ s, isAbsolute ((fun t : String => "/" ++ t) s) = true := by
    intro s
    cases s with
    | mk data => rfl
  have h := claim10_filter_vacuous (fun t => "/" ++ t) ["bashrc", "x"] ["/w"] habs
  exact ⟨h.2.1 (by simp), h.2.2⟩

/-- C6 counterexample: a run whose manifest load fails (the `parse`
collaborator returns failure on every input) still invokes the merge,
catches the error, and exits with code 0 — the claimed non-zero exit does
not happen. -/
theorem claim6_error_swallowed_cex :
    (update_dotbot_conf (fun _ => none) (fun _ => "") "conf" ["bashrc"] true ""
      [("conf", "orig")]).caught = true ∧
    (main (fun _ => none) (fun _ => "") (fun s => "/" ++ s) (some ["bashrc"])
      ["/w"] "conf" true "" [("conf", "orig")]).updateInvoked = true ∧
    (main (fun _ => none) (fun _ => "") (fun s => "/" ++ s) (some ["bashrc"])
      ["/w"] "conf" true "" [("conf", "orig")]).exitZero = true := by decide

/-- C6 (amended): load/merge/write failures inside `update_dotbot_conf` are
caught by its except-branch (which restores the backup), logged only at
debug level, and never re-raised; consequently, whenever the diff step
itself succeeds, `main` exits 0 regardless of any manifest load or write
failure. -/
theorem claim6_errors_swallowed (parse : String → Option (List Task))
    (dump : List Task → String) (expand : String → String)
    (patch : List String) (directories : List String) (config_file : String)
    (writeOk : Bool) (corruptText : String) (fs0 : FS) :
    (main parse dump expand (some patch) directories config_file writeOk
      corruptText fs0).exitZero = true := by
  show (if (patch.filter fun f =>
        file_in_any (expand f) (directories.map expand)).isEmpty then _
      else _ : MainOutcome).exitZero = true
  split
  · rfl
  · rfl

/-- C7 counterexample: an added file whose derived target `~/.bashrc` is
already in the manifest produces no new link entries and no write — the
disk is unchanged — yet `main` still stages the manifest file. -/
theorem claim7_staged_without_write_cex :
    (main (fun _ => some [⟨some [("~/.bashrc", "bashrc")]⟩]) (fun _ => "D")
      (fun s => "/" ++ s) (some ["bashrc"]) ["/w"] "conf" true ""
      [("conf", "orig")]).staged = true ∧
    (main (fun _ => some [⟨some [("~/.bashrc", "bashrc")]⟩]) (fun _ => "D")
      (fun s => "/" ++ s) (some ["bashrc"]) ["/w"] "conf" true ""
      [("conf", "orig")]).wrote = false ∧
    (main (fun _ => some [⟨some [("~/.bashrc", "bashrc")]⟩]) (fun _ => "D")
      (fun s => "/" ++ s) (some ["bashrc"]) ["/w"] "conf" true ""
      [("conf", "orig")]).fs = [("conf", "orig")] := by decide

/-- C7 (amended): `main` stages the manifest file iff `get_added_files`
returns a non-empty list — even when the merge writes nothing because every
derived target already exists; when no added files are found, the disk is
untouched and nothing is staged. -/
theorem claim7_staging_iff_added_files (parse : String → Option (List Task))
    (dump : List Task → String) (expand : String → String)
    (patch : List String) (directories : List String) (config_file : String)
    (writeOk : Bool) (corruptText : String) (fs0 : FS) :
    ((main parse dump expand (some patch) directories config_file writeOk
        corruptText fs0).staged = true ↔
      patch.filter (fun f => file_in_any (expand f) (directories.map expand)) ≠
        []) ∧
    (patch.filter (fun f => file_in_any (expand f) (directories.map expand)) =
        [] →
      (main parse dump expand (some patch) directories config_file writeOk
        corruptText fs0).fs = fs0 ∧
      (main parse dump expand (some patch) directories config_file writeOk
        corruptText fs0).staged = false) := by
  have hmain : main parse dump expand (some patch) directories config_file
      writeOk corruptText fs0 =
      (if (patch.filter fun f =>
          file_in_any (expand f) (directories.map expand)).isEmpty then
        ⟨fs0, false, false, false, true⟩
      else
        let r := update_dotbot_conf parse dump config_file
          (patch.filter fun f => file_in_any (expand f) (directories.map expand))
          writeOk corruptText fs0
        ⟨r.fs, true, true, r.wrote, true⟩) := rfl
  by_cases hemp : (patch.filter fun f =>
      file_in_any (expand f) (directories.map expand)).isEmpty = true
  · rw [hmain, if_pos hemp]
    have : patch.filter (fun f =>
        file_in_any (expand f) (directories.map expand)) = [] :=
      List.isEmpty_iff.mp hemp
    constructor
    · constructor
      · intro h; exact absurd h (by simp)
      · intro h; exact absurd this h
    · intro _; exact ⟨rfl, rfl⟩
  · rw [hmain, if_neg hemp]
    have hne : patch.filter (fun f =>
        file_in_any (expand f) (directories.map expand)) ≠ [] := by
      intro h
      exact hemp (List.isEmpty_iff.mpr h)
    constructor
    · constructor
      · intro _; exact hne
      · intro _; rfl
    · intro h; exact absurd h hne

/-- Witness for C7 (amended): a concrete run with one added file is
staged. -/
theorem claim7_staging_iff_added_files_witness :
    (main (fun _ => some []) (fun _ => "") (fun s => "/" ++ s) (some ["a"])
      ["/w"] "conf" true "" [("conf", "")]).staged = true := by
  have h := claim7_staging_iff_added_files (fun _ => some []) (fun _ => "")
    (fun s => "/" ++ s) ["a"] ["/w"] "conf" true "" [("conf", "")]
  exact h.1.mpr (by decide)

theorem update_dotbot_conf_eq (parse : String → Option (List Task))
    (dump : List Task → String) (config_file : String)
    (added_files : List String) (writeOk : Bool) (corruptText : String)
    (fs0 : FS) :
    update_dotbot_conf parse dump config_file added_files writeOk corruptText
        fs0 =
      match parse (readFile fs0 config_file) with
      | none =>
          ⟨removeFile
              (dictInsert
                (dictInsert fs0 (backup_name (FS.names fs0) config_file)
                  (readFile fs0 config_file))
                config_file (readFile fs0 config_file))
              (backup_name (FS.names fs0) config_file),
            false, true⟩
      | some tasks =>
          if (buildNewTask tasks added_files).isEmpty then
            ⟨removeFile
                (dictInsert fs0 (backup_name (FS.names fs0) config_file)
                  (readFile fs0 config_file))
                (backup_name (FS.names fs0) config_file),
              false, false⟩
          else if writeOk then
            ⟨removeFile
                (dictInsert
                  (dictInsert fs0 (backup_name (FS.names fs0) config_file)
                    (readFile fs0 config_file))
                  config_file
                  (dump (tasks ++ [⟨some (buildNewTask tasks added_files)⟩])))
                (backup_name (FS.names fs0) config_file),
              true, false⟩
          else
            ⟨removeFile
                (dictInsert
                  (dictInsert
                    (dictInsert fs0 (backup_name (FS.names fs0) config_file)
                      (readFile fs0 config_file))
                    config_file corruptText)
                  config_file (readFile fs0 config_file))
                (backup_name (FS.names fs0) config_file),
              false, true⟩ := by
  have hne : config_file ≠ backup_name (FS.names fs0) config_file :=
    Ne.symm (backup_name_ne (FS.names fs0) config_file)
  have hne2 : backup_name (FS.names fs0) config_file ≠ config_file :=
    backup_name_ne (FS.names fs0) config_file
  have hr1 : readFile
      (dictInsert fs0 (backup_name (FS.names fs0) config_file)
        (readFile fs0 config_file)) config_file = readFile fs0 config_file :=
    readFile_dictInsert_ne fs0 _ _ config_file hne
  have hrb : readFile
      (dictInsert fs0 (backup_name (FS.names fs0) config_file)
        (readFile fs0 config_file)) (backup_name (FS.names fs0) config_file) =
      readFile fs0 config_file :=
    readFile_dictInsert_self fs0 _ _
  have hrb2 : readFile
      (dictInsert (dictInsert fs0 (backup_name (FS.names fs0) config_file)
          (readFile fs0 config_file)) config_file corruptText)
        (backup_name (FS.names fs0) config_file) = readFile fs0 config_file := by
    rw [readFile_dictInsert_ne _ config_file corruptText _ hne2, hrb]
  simp only [update_dotbot_conf]
  rw [hr1]
  cases hp : parse (readFile fs0 config_file) with
  | none => simp [hrb]
  | some tasks =>
      by_cases hnt : (buildNewTask tasks added_files).isEmpty = true
      · simp [hnt]
      · cases writeOk with
        | false => simp [hnt, hrb2]
        | true => simp [hnt]

/-- C2 (confirmed): crash-safe merge.  On every exit path the probed backup
file is gone from disk; if the manifest load fails or the write fails (after
leaving partial content), the on-disk manifest content is restored to its
pre-run content; and in every run the manifest either still has its original
content or holds exactly the dump of the merged manifest (the success
path). -/
theorem claim2_crash_safe_merge (parse : String → Option (List Task))
    (dump : List Task → String) (config_file : String)
    (added_files : List String) (writeOk : Bool) (corruptText : String)
    (fs0 : FS) :
    backup_name (FS.names fs0) config_file ∉
      FS.names (update_dotbot_conf parse dump config_file added_files writeOk
        corruptText fs0).fs ∧
    ((parse (readFile fs0 config_file) = none ∨ writeOk = false) →
      readFile (update_dotbot_conf parse dump config_file added_files writeOk
          corruptText fs0).fs config_file = readFile fs0 config_file) ∧
    (readFile (update_dotbot_conf parse dump config_file added_files writeOk
        corruptText fs0).fs config_file = readFile fs0 config_file ∨
      ((update_dotbot_conf parse dump config_file added_files writeOk
          corruptText fs0).wrote = true ∧
        ∃ tasks, parse (readFile fs0 config_file) = some tasks ∧
          readFile (update_dotbot_conf parse dump config_file added_files
              writeOk corruptText fs0).fs config_file =
            dump (tasks ++ [⟨some (buildNewTask tasks added_files)⟩]))) := by
  have hne : config_file ≠ backup_name (FS.names fs0) config_file :=
    Ne.symm (backup_name_ne (FS.names fs0) config_file)
  rw [update_dotbot_conf_eq]
  cases hp : parse (readFile fs0 config_file) with
  | none =>
      refine ⟨not_mem_names_removeFile _ _, fun _ => ?_, Or.inl ?_⟩
      all_goals
        rw [readFile_removeFile_ne _ _ _ hne, readFile_dictInsert_self]
  | some tasks =>
      by_cases hnt : (buildNewTask tasks added_files).isEmpty = true
      · simp only [if_pos hnt]
        refine ⟨not_mem_names_removeFile _ _, fun _ => ?_, Or.inl ?_⟩
        all_goals
          rw [readFile_removeFile_ne _ _ _ hne,
            readFile_dictInsert_ne _ _ _ _ hne]
      · cases writeOk with
        | false =>
            simp only [if_neg hnt, Bool.false_eq_true, if_false]
            refine ⟨not_mem_names_removeFile _ _, fun _ => ?_, Or.inl ?_⟩
            all_goals
              rw [readFile_removeFile_ne _ _ _ hne, readFile_dictInsert_self]
        | true =>
            simp only [if_neg hnt, if_true]
            refine ⟨not_mem_names_removeFile _ _, fun h => absurd h (by simp),
              Or.inr ⟨by trivial, tasks, by trivial, ?_⟩⟩
            rw [readFile_removeFile_ne _ _ _ hne, readFile_dictInsert_self]

/-- Witness for C2: a concrete failing load leaves the manifest content
unchanged and no backup on disk. -/
theorem claim2_crash_safe_merge_witness :
    backup_name (FS.names [("conf", "orig")]) "conf" ∉
      FS.names (update_dotbot_conf (fun _ => none) (fun _ => "D") "conf" ["a"]
        true "" [("conf", "orig")]).fs ∧
    readFile (update_dotbot_conf (fun _ => none) (fun _ => "D") "conf" ["a"]
        true "" [("conf", "orig")]).fs "conf" =
      readFile [("conf", "orig")] "conf" := by
  have h := claim2_crash_safe_merge (fun _ => none) (fun _ => "D") "conf"
    ["a"] true "" [("conf", "orig")]
  exact ⟨h.1, h.2.1 (Or.inl rfl)⟩

end Autobot

